import Mathlib

/-!
Verification of the spaced-repetition engine of the words_spelling repository
(src/src-tauri/src/database/mod.rs), shallowly embedded in Lean.

Modelling choices:
- SQLite tables become Lean lists kept in insertion (rowid) order: the store of
  segments is a list of Segment rows, the word_mastery table a list of
  WordMastery rows.
- Timestamps are serialized second-granularity strings in the source whose
  lexicographic order coincides with chronological order; they are modelled as
  natural numbers (seconds), with adding d days modelled as adding d * 86400.
- The f64 ease_factor is modelled as a rational number; the only operations the
  code performs on it are addition of decimal constants, min and max.
- Machine integers i64/i32 are modelled as Int; the one place where a cast
  matters (the i32 limit cast to usize in get_scheduled_words) is modelled
  explicitly with arithmetic modulo 2^64, and the usize-to-i32 casts of the
  result counts are modelled with wrap-around to the signed 32-bit range.
-/

namespace WordsSpelling

/-- Row of the segments table: one practice item of an article. -/
structure Segment where
  id : Int
  article_id : Int
  segment_type : String
  content : String
  order_index : Nat
deriving DecidableEq, Repr

/-- Row of the word_mastery table: per (user, segment) learning state. -/
structure WordMastery where
  user_name : String
  segment_id : Int
  segment_content : String
  segment_type : String
  mastery_level : Int
  ease_factor : ℚ
  interval_days : Int
  next_review_at : Nat
  last_review_at : Nat
  review_count : Int
deriving DecidableEq, Repr

/-- The four learning-state fields the SM-2 computation of update_word_mastery
operates on, in the order the source reads them. -/
structure SM2State where
  mastery_level : Int
  ease_factor : ℚ
  interval_days : Int
  review_count : Int
deriving DecidableEq, Repr

/-- The interval match expression of update_word_mastery: the new interval as a
function of the new mastery level, defaulting to the prior interval. -/
def intervalTable (new_ml : Int) (iv : Int) : Int :=
  if new_ml = 0 then 1
  else if new_ml = 1 then 1
  else if new_ml = 2 then 3
  else if new_ml = 3 then 7
  else if new_ml = 4 then 14
  else if new_ml = 5 then 30
  else iv

/-- The SM-2 state transition at the heart of update_word_mastery: given the
optional existing record fields and the outcome, compute the new fields. -/
def sm2Transition (existing : Option SM2State) (correct : Bool) : SM2State :=
  match existing with
  | some s =>
    if correct then
      let new_ml := min (s.mastery_level + 1) 5
      let new_ef := max (min (s.ease_factor + 0.1) 3.0) 1.3
      let new_iv := intervalTable new_ml s.interval_days
      ⟨new_ml, new_ef, new_iv, s.review_count + 1⟩
    else
      let new_ml := max (s.mastery_level - 1) 0
      let new_ef := max (s.ease_factor - 0.2) 1.3
      ⟨new_ml, new_ef, 0, s.review_count⟩
  | none =>
    if correct then ⟨1, 2.5, 1, 1⟩ else ⟨0, 2.5, 0, 0⟩

/-- The query for the existing record of update_word_mastery: the row of the
word_mastery table for this user and segment, if any. -/
def lookupMastery (ledger : List WordMastery) (user : String) (sid : Int) :
    Option WordMastery :=
  ledger.find? (fun r => r.user_name == user && r.segment_id == sid)

/-- The INSERT ... ON CONFLICT(user_name, segment_id) DO UPDATE of
update_word_mastery: replace the row with the same key, or append a new row. -/
def upsertMastery (ledger : List WordMastery) (rec : WordMastery) :
    List WordMastery :=
  if ledger.any (fun r => r.user_name == rec.user_name && r.segment_id == rec.segment_id) then
    ledger.map (fun r =>
      if r.user_name == rec.user_name && r.segment_id == rec.segment_id then rec else r)
  else
    ledger ++ [rec]

def secondsPerDay : Nat := 86400

/-- Embedding of update_word_mastery: look up the existing record, run the SM-2
transition, derive next_review_at and last_review_at from the current time, and
upsert the row; returns the record together with the updated table. -/
def update_word_mastery (ledger : List WordMastery) (user : String) (sid : Int)
    (content segment_type : String) (correct : Bool) (now : Nat) :
    WordMastery × List WordMastery :=
  let existing := (lookupMastery ledger user sid).map
    (fun r => SM2State.mk r.mastery_level r.ease_factor r.interval_days r.review_count)
  let f := sm2Transition existing correct
  let next_review := if f.interval_days = 0 then now
    else now + secondsPerDay * f.interval_days.toNat
  let row := WordMastery.mk user sid content segment_type
    f.mastery_level f.ease_factor f.interval_days next_review now f.review_count
  (row, upsertMastery ledger row)

/-- A sequence of outcome reports for one (user, segment) pair, each with its
report time, applied in order through update_word_mastery. -/
def applyOutcomes (user : String) (sid : Int) (content segment_type : String)
    (ledger : List WordMastery) : List (Bool × Nat) → List WordMastery
  | [] => ledger
  | o :: os =>
      applyOutcomes user sid content segment_type
        (update_word_mastery ledger user sid content segment_type o.1 o.2).2 os

/-- Row of the session plan returned by get_scheduled_words. -/
structure ScheduledWord where
  segment_id : Int
  content : String
  segment_type : String
  mastery_level : Int
  is_new : Bool
  next_review_at : Nat
deriving DecidableEq, Repr

/-- Response of get_scheduled_words: the planned words plus the two counts. -/
structure ScheduledWordsResponse where
  words : List ScheduledWord
  new_words_count : Int
  review_words_count : Int
deriving DecidableEq, Repr

/-- The cast limit as usize performed on the i32 limit of get_scheduled_words,
on a 64-bit target: reinterpretation modulo 2 to the 64. -/
def usizeOfI32 (n : Int) : Nat := (n % (2 ^ 64)).toNat

/-- The cast count as i32 performed on the usize element counts of
get_scheduled_words: wrap-around into the signed 32-bit range. -/
def i32OfUsize (n : Nat) : Int := ((n : Int) + 2 ^ 31) % 2 ^ 32 - 2 ^ 31

/-- The far-future constant 2999-12-31 23:59:59 assigned to new words as their
next_review_at, rendered in the seconds-based time model. -/
def futureTime : Nat := 32503679999

/-- The SELECT of get_scheduled_words fetching all segments of the article and
kind; the list keeps the insertion (rowid) order of the table. -/
def articleSegments (store : List Segment) (article_id : Int)
    (segment_type : String) : List Segment :=
  store.filter (fun s => s.article_id == article_id && s.segment_type == segment_type)

/-- The review side of the partition loop of get_scheduled_words: segments with
a mastery record for the user whose next_review_at is not after now, in segment
order. -/
def dueReviewWords (store : List Segment) (ledger : List WordMastery)
    (user : String) (article_id : Int) (segment_type : String) (now : Nat) :
    List ScheduledWord :=
  (articleSegments store article_id segment_type).filterMap (fun s =>
    match lookupMastery ledger user s.id with
    | some r =>
        if r.next_review_at ≤ now then
          some ⟨s.id, s.content, s.segment_type, r.mastery_level, false, r.next_review_at⟩
        else none
    | none => none)

/-- The new side of the partition loop of get_scheduled_words: segments with no
mastery record for the user, in segment order. -/
def newWords (store : List Segment) (ledger : List WordMastery)
    (user : String) (article_id : Int) (segment_type : String) :
    List ScheduledWord :=
  (articleSegments store article_id segment_type).filterMap (fun s =>
    match lookupMastery ledger user s.id with
    | some _ => none
    | none => some ⟨s.id, s.content, s.segment_type, 0, true, futureTime⟩)

/-- The comparator passed to sort_by in get_scheduled_words: new words last,
then by next_review_at ascending, then by mastery_level ascending. -/
def schedCmp (a b : ScheduledWord) : Ordering :=
  if a.is_new != b.is_new then
    compare a.is_new b.is_new
  else
    let time_cmp := compare a.next_review_at b.next_review_at
    if time_cmp != Ordering.eq then time_cmp
    else compare a.mastery_level b.mastery_level

/-- Non-strict ordering test derived from the comparator, used by the stable
sort model. -/
def schedLe (a b : ScheduledWord) : Bool := schedCmp a b != Ordering.gt

/-- Insertion of one element into a sorted list, before the first element not
below it; the building block of the stable sort model. -/
def insertSorted {α : Type} (le : α → α → Bool) (x : α) : List α → List α
  | [] => [x]
  | y :: ys => if le x y then x :: y :: ys else y :: insertSorted le x ys

/-- Stable insertion sort, modelling the stable sort_by of the source. -/
def sortBy {α : Type} (le : α → α → Bool) : List α → List α
  | [] => []
  | x :: xs => insertSorted le x (sortBy le xs)

/-- Embedding of get_scheduled_words: fetch the segments of the article and
kind, partition them against the mastery table into due-review and new words,
take review words first up to the limit and fill with new words, sort by the
memory-curve comparator, and count the composition. -/
def get_scheduled_words (store : List Segment) (ledger : List WordMastery)
    (user : String) (article_id : Int) (segment_type : String) (limit : Int)
    (now : Nat) : ScheduledWordsResponse :=
  let all_segments := articleSegments store article_id segment_type
  if all_segments.isEmpty then
    ⟨[], 0, 0⟩
  else
    let review_words := dueReviewWords store ledger user article_id segment_type now
    let new_words := newWords store ledger user article_id segment_type
    let limitN := usizeOfI32 limit
    let result :=
      if review_words.length < limitN then
        review_words ++ new_words.take (limitN - review_words.length)
      else
        review_words.take limitN
    let sorted := sortBy schedLe result
    let new_count := sorted.countP (fun w => w.is_new)
    let review_count_val := sorted.countP (fun w => !w.is_new)
    ⟨sorted, i32OfUsize new_count, i32OfUsize review_count_val⟩

/-- One row of the snapshot taken by save_segments before deleting the old
segments: content, mastery_level, ease_factor, interval_days, next_review_at,
last_review_at, review_count.  The user_name column is not selected. -/
structure SnapshotRow where
  segment_content : String
  mastery_level : Int
  ease_factor : ℚ
  interval_days : Int
  next_review_at : Nat
  last_review_at : Nat
  review_count : Int
deriving DecidableEq, Repr

/-- The snapshot SELECT of save_segments: all word_mastery rows, of every user,
whose segment belongs to the given article and kind. -/
def masterySnapshot (store : List Segment) (ledger : List WordMastery)
    (article_id : Int) (segment_type : String) : List SnapshotRow :=
  ledger.filterMap (fun r =>
    if store.any (fun s =>
        s.id == r.segment_id && s.article_id == article_id && s.segment_type == segment_type) then
      some ⟨r.segment_content, r.mastery_level, r.ease_factor, r.interval_days,
            r.next_review_at, r.last_review_at, r.review_count⟩
    else none)

/-- Embedding of save_segments (the re-tokenization reconciler): snapshot the
mastery rows of the old segments, delete the old segments together with their
mastery rows (the foreign-key cascade), insert the new segments with fresh
consecutive ids starting at next_id, and re-insert, for each new segment whose
content has a snapshot match, a mastery row under the fixed user name default
copying the fields of the first matching snapshot row.  Returns the new
segment store and the new mastery table. -/
def save_segments (store : List Segment) (ledger : List WordMastery)
    (article_id : Int) (segment_type : String) (segments : List String)
    (next_id : Int) : List Segment × List WordMastery :=
  let old_mastery := masterySnapshot store ledger article_id segment_type
  let kept_store := store.filter (fun s =>
    !(s.article_id == article_id && s.segment_type == segment_type))
  let kept_ledger := ledger.filter (fun r =>
    !(store.any (fun s =>
        s.id == r.segment_id && s.article_id == article_id && s.segment_type == segment_type)))
  let new_segments := segments.enum.map (fun p =>
    Segment.mk (next_id + p.1) article_id segment_type p.2 p.1)
  let restored := segments.enum.filterMap (fun p =>
    match old_mastery.find? (fun t => t.segment_content == p.2) with
    | some t =>
        some (WordMastery.mk "default" (next_id + p.1) p.2 segment_type
          t.mastery_level t.ease_factor t.interval_days
          t.next_review_at t.last_review_at t.review_count)
    | none => none)
  (kept_store ++ new_segments, kept_ledger ++ restored)

/-- Clamp as written in the specification, applied to the ease factor. -/
def specClamp (x lo hi : ℚ) : ℚ := max (min x hi) lo

/-- The fixed interval table of the specification, indexed by mastery level
0 to 5. -/
def specIntervalTable (level : Int) : Int :=
  if level = 0 then 1
  else if level = 1 then 1
  else if level = 2 then 3
  else if level = 3 then 7
  else if level = 4 then 14
  else if level = 5 then 30
  else 0

/-- Modelled from the spec: the transition table of the Mastery Update Function
exactly as section 4.2 of the specification words it, to be compared with the
transition the code performs. -/
def specTransition (prior : Option SM2State) (correct : Bool) : SM2State :=
  match prior, correct with
  | none, true => ⟨1, 2.5, 1, 1⟩
  | none, false => ⟨0, 2.5, 0, 0⟩
  | some s, true =>
      ⟨min (s.mastery_level + 1) 5,
       specClamp (s.ease_factor + 0.1) 1.3 3.0,
       specIntervalTable (min (s.mastery_level + 1) 5),
       s.review_count + 1⟩
  | some s, false =>
      ⟨max (s.mastery_level - 1) 0,
       specClamp (s.ease_factor - 0.2) 1.3 3.0,
       0,
       s.review_count⟩

/-- The four SM-2 fields of a mastery row, as read back by the lookup of
update_word_mastery. -/
def stateOf (r : WordMastery) : SM2State :=
  ⟨r.mastery_level, r.ease_factor, r.interval_days, r.review_count⟩

/-- The per-item field evolution: folding the SM-2 transition over a sequence
of outcomes, starting from an optional existing state. -/
def foldTransition (s : Option SM2State) (os : List Bool) : Option SM2State :=
  os.foldl (fun a c => some (sm2Transition a c)) s

/-- Relation between a mastery table that only ever received reports for one
(user, segment) pair and the folded SM-2 state of that pair. -/
def SingleItemRel (u : String) (sid : Int) (ledger : List WordMastery)
    (s : Option SM2State) : Prop :=
  (ledger = [] ∧ s = none) ∨
  ∃ r, ledger = [r] ∧ r.user_name = u ∧ r.segment_id = sid ∧ s = some (stateOf r)

theorem insertSorted_perm {α : Type} (le : α → α → Bool) (x : α) (l : List α) :
    (insertSorted le x l).Perm (x :: l) := by
  induction l with
  | nil => exact List.Perm.refl _
  | cons y ys ih =>
      by_cases h : le x y = true
      · simp [insertSorted, h]
      · simp only [insertSorted, h, if_false]
        exact ((ih.cons y).trans (List.Perm.swap x y ys))

theorem sortBy_perm {α : Type} (le : α → α → Bool) (l : List α) :
    (sortBy le l).Perm l := by
  induction l with
  | nil => exact List.Perm.refl _
  | cons x xs ih => exact (insertSorted_perm le x (sortBy le xs)).trans (ih.cons x)

theorem length_sortBy {α : Type} (le : α → α → Bool) (l : List α) :
    (sortBy le l).length = l.length :=
  (sortBy_perm le l).length_eq

theorem mem_sortBy {α : Type} (le : α → α → Bool) (l : List α) (a : α) :
    a ∈ sortBy le l ↔ a ∈ l :=
  (sortBy_perm le l).mem_iff

theorem countP_sortBy {α : Type} (le : α → α → Bool) (l : List α) (p : α → Bool) :
    (sortBy le l).countP p = l.countP p :=
  (sortBy_perm le l).countP_eq p

theorem intervalTable_eq_spec (m iv : Int) (h0 : 0 ≤ m) (h5 : m ≤ 5) :
    intervalTable m iv = specIntervalTable m := by
  unfold intervalTable specIntervalTable
  split_ifs <;> omega

theorem usizeOfI32_of_nonneg {n : Int} (h0 : 0 ≤ n) (h1 : n < 2 ^ 31) :
    usizeOfI32 n = n.toNat := by
  unfold usizeOfI32
  have : n % 2 ^ 64 = n := by omega
  rw [this]

theorem i32OfUsize_small {n : Nat} (h : n < 2 ^ 31) : i32OfUsize n = n := by
  unfold i32OfUsize
  omega

theorem usizeOfI32_of_neg {n : Int} (h0 : n < 0) (h1 : -(2 ^ 31) ≤ n) :
    2 ^ 63 ≤ usizeOfI32 n := by
  unfold usizeOfI32
  have : n % 2 ^ 64 = n + 2 ^ 64 := by omega
  omega

theorem length_filterMap_add_le {α β γ : Type} (f : α → Option β) (g : α → Option γ)
    (l : List α) (h : ∀ a, (f a).isSome → g a = none) :
    (l.filterMap f).length + (l.filterMap g).length ≤ l.length := by
  induction l with
  | nil => simp
  | cons a l ih =>
      cases hf : f a with
      | some b =>
          have hg : g a = none := h a (by simp [hf])
          simp only [List.filterMap_cons, hf, hg, List.length_cons]
          omega
      | none =>
          cases hg : g a with
          | some c =>
              simp only [List.filterMap_cons, hf, hg, List.length_cons]
              omega
          | none =>
              simp only [List.filterMap_cons, hf, hg, List.length_cons]
              omega

theorem mem_upsertMastery {ledger : List WordMastery} {row r : WordMastery}
    (h : r ∈ upsertMastery ledger row) : r = row ∨ r ∈ ledger := by
  unfold upsertMastery at h
  split at h
  · rcases List.mem_map.mp h with ⟨a, ha, hr⟩
    by_cases hc : (a.user_name == row.user_name && a.segment_id == row.segment_id) = true
    · rw [hc] at hr
      simp at hr
      exact Or.inl hr.symm
    · rw [if_neg hc] at hr
      exact Or.inr (hr ▸ ha)
  · rcases List.mem_append.mp h with h1 | h1
    · exact Or.inr h1
    · simp at h1
      exact Or.inl h1

theorem sm2Transition_ease_bounds (s : Option SM2State) (c : Bool)
    (h : ∀ t, s = some t → 1.3 ≤ t.ease_factor ∧ t.ease_factor ≤ 3.0) :
    1.3 ≤ (sm2Transition s c).ease_factor ∧ (sm2Transition s c).ease_factor ≤ 3.0 := by
  cases s with
  | none => cases c <;> constructor <;> norm_num [sm2Transition]
  | some t =>
      obtain ⟨hl, hu⟩ := h t rfl
      cases c with
      | true =>
          simp only [sm2Transition]
          exact ⟨le_max_right _ _, max_le (min_le_right _ _) (by norm_num)⟩
      | false =>
          simp only [sm2Transition]
          exact ⟨le_max_right _ _, max_le (by linarith) (by norm_num)⟩

theorem applyOutcomes_ease_inv (u : String) (sid : Int) (c ty : String)
    (os : List (Bool × Nat)) :
    ∀ ledger : List WordMastery,
      (∀ r ∈ ledger, 1.3 ≤ r.ease_factor ∧ r.ease_factor ≤ 3.0) →
      ∀ r ∈ applyOutcomes u sid c ty ledger os,
        1.3 ≤ r.ease_factor ∧ r.ease_factor ≤ 3.0 := by
  induction os with
  | nil => intro ledger hinv r hr; exact hinv r hr
  | cons o os ih =>
      intro ledger hinv r hr
      rw [applyOutcomes] at hr
      refine ih _ ?_ r hr
      intro r2 hr2
      simp only [update_word_mastery] at hr2
      rcases mem_upsertMastery hr2 with h1 | h1
      · subst h1
        refine sm2Transition_ease_bounds _ _ ?_
        intro t ht
        rcases Option.map_eq_some'.mp ht with ⟨q, hq, hqt⟩
        rw [lookupMastery] at hq
        have hmem := List.mem_of_find?_eq_some hq
        have := hinv q hmem
        rw [← hqt]
        exact this
      · exact hinv r2 h1

/-- C5: for every finite sequence of outcome reports on one item, starting from
no mastery record, the ease factor of every record in the resulting table, in
particular of the record of that item, lies in the interval from 1.3 to 3.0
after every report. -/
theorem ease_factor_bounded (u : String) (sid : Int) (c ty : String)
    (os : List (Bool × Nat)) (r : WordMastery)
    (h : r ∈ applyOutcomes u sid c ty [] os) :
    1.3 ≤ r.ease_factor ∧ r.ease_factor ≤ 3.0 :=
  applyOutcomes_ease_inv u sid c ty os [] (by simp) r h

/-- Witness for C5 at the one-report sequence with a correct outcome. -/
theorem ease_factor_bounded_witness :
    ((⟨"u", 1, "a", "w", 1, 2.5, 1, 86400, 0, 1⟩ : WordMastery)
        ∈ applyOutcomes "u" 1 "a" "w" [] [(true, 0)]) ∧
    (1.3 ≤ (⟨"u", 1, "a", "w", 1, 2.5, 1, 86400, 0, 1⟩ : WordMastery).ease_factor ∧
      (⟨"u", 1, "a", "w", 1, 2.5, 1, 86400, 0, 1⟩ : WordMastery).ease_factor ≤ 3.0) :=
  ⟨List.Mem.head _, ease_factor_bounded "u" 1 "a" "w" [(true, 0)] _ (List.Mem.head _)⟩

/-- C3: the Mastery Update Function computes exactly the transition table of
the specification, for every well-formed prior record (mastery level at least
0 and ease factor at most 3) and for the no-prior-record cases. -/
theorem mastery_update_table (prior : Option SM2State) (correct : Bool)
    (hml : ∀ s, prior = some s → 0 ≤ s.mastery_level)
    (hef : ∀ s, prior = some s → s.ease_factor ≤ 3.0) :
    sm2Transition prior correct = specTransition prior correct := by
  cases prior with
  | none => cases correct <;> rfl
  | some s =>
      have h1 := hml s rfl
      have h2 := hef s rfl
      cases correct with
      | false =>
          simp only [sm2Transition, specTransition, specClamp, SM2State.mk.injEq]
          rw [min_eq_left (by linarith : s.ease_factor - 0.2 ≤ (3.0 : ℚ))]
          simp
      | true =>
          simp only [sm2Transition, specTransition, specClamp, SM2State.mk.injEq]
          rw [intervalTable_eq_spec _ _ (by omega) (by omega)]
          simp

/-- Witness for C3 at a concrete prior record and a correct outcome. -/
theorem mastery_update_table_witness :
    ((∀ s, some (⟨2, 2.5, 3, 7⟩ : SM2State) = some s → 0 ≤ s.mastery_level) ∧
     (∀ s, some (⟨2, 2.5, 3, 7⟩ : SM2State) = some s → s.ease_factor ≤ 3.0)) ∧
    sm2Transition (some ⟨2, 2.5, 3, 7⟩) true = specTransition (some ⟨2, 2.5, 3, 7⟩) true := by
  have hml : ∀ s, some (⟨2, 2.5, 3, 7⟩ : SM2State) = some s → 0 ≤ s.mastery_level := by
    intro s hs; cases hs; norm_num
  have hef : ∀ s, some (⟨2, 2.5, 3, 7⟩ : SM2State) = some s → s.ease_factor ≤ 3.0 := by
    intro s hs; cases hs; norm_num
  exact ⟨⟨hml, hef⟩, mastery_update_table _ _ hml hef⟩

/-- C6: after any report with an incorrect outcome, the returned record has
interval 0, its next review time equals the report time, its last review time
equals the report time, and hence next review is not before last review. -/
theorem incorrect_resets_interval (ledger : List WordMastery) (u : String)
    (sid : Int) (c ty : String) (now : Nat) :
    (update_word_mastery ledger u sid c ty false now).1.interval_days = 0 ∧
    (update_word_mastery ledger u sid c ty false now).1.next_review_at = now ∧
    (update_word_mastery ledger u sid c ty false now).1.last_review_at = now ∧
    (update_word_mastery ledger u sid c ty false now).1.last_review_at ≤
      (update_word_mastery ledger u sid c ty false now).1.next_review_at := by
  have hiv : ∀ s : Option SM2State, (sm2Transition s false).interval_days = 0 := by
    intro s; cases s <;> rfl
  simp [update_word_mastery, hiv]

/-- C8: a report for a (user, segment) pair with no existing mastery record
does not fail: it returns the fresh record of the no-prior-record branch and
inserts it into the table. -/
theorem first_report_creates_record (ledger : List WordMastery) (u : String)
    (sid : Int) (c ty : String) (correct : Bool) (now : Nat)
    (h : lookupMastery ledger u sid = none) :
    (update_word_mastery ledger u sid c ty correct now).1 =
      (if correct then
        WordMastery.mk u sid c ty 1 2.5 1 (now + secondsPerDay) now 1
      else
        WordMastery.mk u sid c ty 0 2.5 0 now now 0) ∧
    (update_word_mastery ledger u sid c ty correct now).1
      ∈ (update_word_mastery ledger u sid c ty correct now).2 := by
  have hany : (ledger.any fun r => r.user_name == u && r.segment_id == sid) = false := by
    rw [List.any_eq_false]
    intro x hx
    have hnone := List.find?_eq_none.mp h x hx
    simpa using hnone
  constructor
  · simp only [update_word_mastery, h, Option.map_none']
    cases correct
    · rfl
    · simp [sm2Transition, secondsPerDay]
  · simp only [update_word_mastery, upsertMastery, h, Option.map_none']
    rw [if_neg]
    · simp
    · simp [hany]

/-- Witness for C8 on the empty table. -/
theorem first_report_creates_record_witness :
    (lookupMastery [] "u" 1 = none) ∧
    ((update_word_mastery [] "u" 1 "a" "w" true 0).1 =
      (if true then
        WordMastery.mk "u" 1 "a" "w" 1 2.5 1 (0 + secondsPerDay) 0 1
      else
        WordMastery.mk "u" 1 "a" "w" 0 2.5 0 0 0 0) ∧
    (update_word_mastery [] "u" 1 "a" "w" true 0).1
      ∈ (update_word_mastery [] "u" 1 "a" "w" true 0).2) :=
  ⟨rfl, first_report_creates_record [] "u" 1 "a" "w" true 0 rfl⟩

theorem update_single_step (u : String) (sid : Int) (c ty : String) (b : Bool)
    (t : Nat) (ledger : List WordMastery) (s : Option SM2State)
    (h : SingleItemRel u sid ledger s) :
    SingleItemRel u sid (update_word_mastery ledger u sid c ty b t).2
      (some (sm2Transition s b)) := by
  rcases h with ⟨h1, h2⟩ | ⟨r, h1, hu, hs, hst⟩
  · subst h1; subst h2
    right
    exact ⟨(update_word_mastery [] u sid c ty b t).1, rfl, rfl, rfl, rfl⟩
  · subst h1; subst hst
    right
    have hlook : lookupMastery [r] u sid = some r := by
      rw [lookupMastery]
      apply List.find?_cons_of_pos
      simp [hu, hs]
    refine ⟨(update_word_mastery [r] u sid c ty b t).1, ?_, rfl, rfl, ?_⟩
    · simp only [update_word_mastery, upsertMastery]
      rw [if_pos]
      · simp [hu, hs]
      · simp [hu, hs]
    · simp only [update_word_mastery, hlook, Option.map_some']
      rfl

theorem applyOutcomes_single (u : String) (sid : Int) (c ty : String)
    (os : List (Bool × Nat)) :
    ∀ (ledger : List WordMastery) (s : Option SM2State),
      SingleItemRel u sid ledger s →
      SingleItemRel u sid (applyOutcomes u sid c ty ledger os)
        (foldTransition s (os.map Prod.fst)) := by
  induction os with
  | nil => intro ledger s h; exact h
  | cons o os ih =>
      intro ledger s h
      rw [applyOutcomes]
      have hstep := update_single_step u sid c ty o.1 o.2 ledger s h
      have hrun := ih _ _ hstep
      simpa [foldTransition] using hrun

theorem foldTransition_correct (k : ℕ) (hk : 1 ≤ k) :
    ∃ ef : ℚ, foldTransition none (List.replicate k true) =
      some ⟨min (k : Int) 5, ef, specIntervalTable (min (k : Int) 5), (k : Int)⟩ := by
  induction k with
  | zero => omega
  | succ k ih =>
      by_cases hk1 : 1 ≤ k
      · obtain ⟨ef, hef⟩ := ih hk1
        rw [List.replicate_succ']
        have hsplit : foldTransition none (List.replicate k true ++ [true])
            = some (sm2Transition (foldTransition none (List.replicate k true)) true) := by
          simp [foldTransition, List.foldl_append]
        rw [hsplit, hef]
        refine ⟨max (min (ef + 0.1) 3.0) 1.3, ?_⟩
        have hml : min (min (k : Int) 5 + 1) 5 = min ((k + 1 : ℕ) : Int) 5 := by
          push_cast; omega
        have hb1 : (0 : Int) ≤ min (min (k : Int) 5 + 1) 5 := by omega
        have hb2 : min (min (k : Int) 5 + 1) 5 ≤ 5 := by omega
        have hstep : sm2Transition
            (some ⟨min (k : Int) 5, ef, specIntervalTable (min (k : Int) 5), (k : Int)⟩) true
            = ⟨min (min (k : Int) 5 + 1) 5, max (min (ef + 0.1) 3.0) 1.3,
                intervalTable (min (min (k : Int) 5 + 1) 5) (specIntervalTable (min (k : Int) 5)),
                (k : Int) + 1⟩ := rfl
        have hcount : ((k : Int)) + 1 = ((k + 1 : ℕ) : Int) := by push_cast; ring
        rw [hstep, intervalTable_eq_spec _ _ hb1 hb2, hml, hcount]
      · have hk0 : k = 0 := by omega
        subst hk0
        refine ⟨2.5, ?_⟩
        have h1 : min ((1 : ℕ) : Int) 5 = 1 := by omega
        simp only [List.replicate_one, foldTransition, List.foldl_cons, List.foldl_nil]
        rw [show ((0 + 1 : ℕ) : Int) = ((1 : ℕ) : Int) by norm_num, h1]
        rfl

/-- C4: starting from no mastery record, a streak of k correct reports leaves
the table with exactly one record for the item, whose mastery level is the
smaller of k and 5 and whose interval is the fixed table entry at that level,
and whose review count is k. -/
theorem correct_streak (u : String) (sid : Int) (c ty : String) (t : Nat)
    (k : ℕ) (hk : 1 ≤ k) :
    ∃ r : WordMastery,
      applyOutcomes u sid c ty [] (List.replicate k (true, t)) = [r] ∧
      r.mastery_level = min (k : Int) 5 ∧
      r.interval_days = specIntervalTable (min (k : Int) 5) ∧
      r.review_count = (k : Int) := by
  have hrel := applyOutcomes_single u sid c ty (List.replicate k (true, t)) [] none
    (Or.inl ⟨rfl, rfl⟩)
  have hmap : (List.replicate k (true, t)).map Prod.fst = List.replicate k true := by
    simp
  rw [hmap] at hrel
  obtain ⟨ef, hef⟩ := foldTransition_correct k hk
  rw [hef] at hrel
  rcases hrel with ⟨h1, h2⟩ | ⟨r, h1, hu2, hs2, hst⟩
  · exact absurd h2 (by simp)
  · have hst2 : stateOf r =
        ⟨min (k : Int) 5, ef, specIntervalTable (min (k : Int) 5), (k : Int)⟩ :=
      (Option.some.inj hst).symm
    rw [stateOf, SM2State.mk.injEq] at hst2
    exact ⟨r, h1, hst2.1, hst2.2.2.1, hst2.2.2.2⟩

/-- Witness for C4 at a streak of 7 correct reports. -/
theorem correct_streak_witness :
    (1 ≤ 7) ∧
    ∃ r : WordMastery,
      applyOutcomes "u" 1 "a" "w" [] (List.replicate 7 (true, 0)) = [r] ∧
      r.mastery_level = min ((7 : ℕ) : Int) 5 ∧
      r.interval_days = specIntervalTable (min ((7 : ℕ) : Int) 5) ∧
      r.review_count = ((7 : ℕ) : Int) :=
  ⟨by norm_num, correct_streak "u" 1 "a" "w" 0 7 (by norm_num)⟩

theorem get_scheduled_words_of_empty (store : List Segment)
    (ledger : List WordMastery) (u : String) (aid : Int) (ty : String)
    (limit : Int) (now : Nat) (h : articleSegments store aid ty = []) :
    get_scheduled_words store ledger u aid ty limit now = ⟨[], 0, 0⟩ := by
  simp [get_scheduled_words, h]

theorem get_scheduled_words_full (store : List Segment) (ledger : List WordMastery)
    (u : String) (aid : Int) (ty : String) (limit : Int) (now : Nat)
    (h : articleSegments store aid ty ≠ [])
    (hge : usizeOfI32 limit ≤ (dueReviewWords store ledger u aid ty now).length) :
    get_scheduled_words store ledger u aid ty limit now =
      ⟨sortBy schedLe ((dueReviewWords store ledger u aid ty now).take (usizeOfI32 limit)),
       i32OfUsize ((sortBy schedLe ((dueReviewWords store ledger u aid ty now).take
          (usizeOfI32 limit))).countP (fun w => w.is_new)),
       i32OfUsize ((sortBy schedLe ((dueReviewWords store ledger u aid ty now).take
          (usizeOfI32 limit))).countP (fun w => !w.is_new))⟩ := by
  have hne : (articleSegments store aid ty).isEmpty = false := by
    simpa [List.isEmpty_iff] using h
  simp only [get_scheduled_words, hne, Bool.false_eq_true, if_false]
  rw [if_neg (Nat.not_lt.mpr hge)]

theorem get_scheduled_words_fill (store : List Segment) (ledger : List WordMastery)
    (u : String) (aid : Int) (ty : String) (limit : Int) (now : Nat)
    (h : articleSegments store aid ty ≠ [])
    (hlt : (dueReviewWords store ledger u aid ty now).length < usizeOfI32 limit) :
    get_scheduled_words store ledger u aid ty limit now =
      ⟨sortBy schedLe (dueReviewWords store ledger u aid ty now
          ++ (newWords store ledger u aid ty).take
            (usizeOfI32 limit - (dueReviewWords store ledger u aid ty now).length)),
       i32OfUsize ((sortBy schedLe (dueReviewWords store ledger u aid ty now
          ++ (newWords store ledger u aid ty).take
            (usizeOfI32 limit - (dueReviewWords store ledger u aid ty now).length))).countP
          (fun w => w.is_new)),
       i32OfUsize ((sortBy schedLe (dueReviewWords store ledger u aid ty now
          ++ (newWords store ledger u aid ty).take
            (usizeOfI32 limit - (dueReviewWords store ledger u aid ty now).length))).countP
          (fun w => !w.is_new))⟩ := by
  have hne : (articleSegments store aid ty).isEmpty = false := by
    simpa [List.isEmpty_iff] using h
  simp only [get_scheduled_words, hne, Bool.false_eq_true, if_false]
  rw [if_pos hlt]

theorem plan_words_length_le (store : List Segment) (ledger : List WordMastery)
    (u : String) (aid : Int) (ty : String) (limit : Int) (now : Nat) :
    (get_scheduled_words store ledger u aid ty limit now).words.length
      ≤ usizeOfI32 limit := by
  by_cases hseg : articleSegments store aid ty = []
  · rw [get_scheduled_words_of_empty store ledger u aid ty limit now hseg]
    simp
  · by_cases hlt : (dueReviewWords store ledger u aid ty now).length < usizeOfI32 limit
    · rw [get_scheduled_words_fill store ledger u aid ty limit now hseg hlt]
      simp only [length_sortBy, List.length_append, List.length_take]
      omega
    · rw [get_scheduled_words_full store ledger u aid ty limit now hseg
        (Nat.not_lt.mp hlt)]
      simp only [length_sortBy, List.length_take]
      omega

/-- C7: for a nonnegative limit in the i32 range, the returned plan is no
longer than the limit and the two reported counts equal the numbers of new and
of review items actually contained in the plan. -/
theorem plan_length_and_counts (store : List Segment) (ledger : List WordMastery)
    (u : String) (aid : Int) (ty : String) (limit : Int) (now : Nat)
    (h0 : 0 ≤ limit) (h1 : limit < 2 ^ 31) :
    ((get_scheduled_words store ledger u aid ty limit now).words.length : Int) ≤ limit ∧
    (get_scheduled_words store ledger u aid ty limit now).new_words_count
      = ((get_scheduled_words store ledger u aid ty limit now).words.countP
          (fun w => w.is_new) : Int) ∧
    (get_scheduled_words store ledger u aid ty limit now).review_words_count
      = ((get_scheduled_words store ledger u aid ty limit now).words.countP
          (fun w => !w.is_new) : Int) := by
  have hlen := plan_words_length_le store ledger u aid ty limit now
  have hlimN : usizeOfI32 limit = limit.toNat := usizeOfI32_of_nonneg h0 h1
  have hsmall : ∀ p : ScheduledWord → Bool,
      (get_scheduled_words store ledger u aid ty limit now).words.countP p < 2 ^ 31 := by
    intro p
    have := List.countP_le_length (p := p)
      (l := (get_scheduled_words store ledger u aid ty limit now).words)
    omega
  refine ⟨?_, ?_, ?_⟩
  · have : (get_scheduled_words store ledger u aid ty limit now).words.length
        ≤ limit.toNat := by omega
    omega
  · by_cases hseg : articleSegments store aid ty = []
    · rw [get_scheduled_words_of_empty store ledger u aid ty limit now hseg]
      simp
    · by_cases hlt : (dueReviewWords store ledger u aid ty now).length < usizeOfI32 limit
      · rw [get_scheduled_words_fill store ledger u aid ty limit now hseg hlt] at *
        exact i32OfUsize_small (hsmall _)
      · rw [get_scheduled_words_full store ledger u aid ty limit now hseg
          (Nat.not_lt.mp hlt)] at *
        exact i32OfUsize_small (hsmall _)
  · by_cases hseg : articleSegments store aid ty = []
    · rw [get_scheduled_words_of_empty store ledger u aid ty limit now hseg]
      simp
    · by_cases hlt : (dueReviewWords store ledger u aid ty now).length < usizeOfI32 limit
      · rw [get_scheduled_words_fill store ledger u aid ty limit now hseg hlt] at *
        exact i32OfUsize_small (hsmall _)
      · rw [get_scheduled_words_full store ledger u aid ty limit now hseg
          (Nat.not_lt.mp hlt)] at *
        exact i32OfUsize_small (hsmall _)

/-- Witness for C7 on a two-segment article with one due record and limit 1. -/
theorem plan_length_and_counts_witness :
    ((0 : Int) ≤ 1 ∧ (1 : Int) < 2 ^ 31) ∧
    (((get_scheduled_words [⟨1, 1, "word", "aa", 0⟩, ⟨2, 1, "word", "bb", 1⟩]
        [⟨"u", 1, "aa", "word", 3, 5/2, 7, 100, 50, 4⟩]
        "u" 1 "word" 1 100).words.length : Int) ≤ 1 ∧
     (get_scheduled_words [⟨1, 1, "word", "aa", 0⟩, ⟨2, 1, "word", "bb", 1⟩]
        [⟨"u", 1, "aa", "word", 3, 5/2, 7, 100, 50, 4⟩]
        "u" 1 "word" 1 100).new_words_count
       = ((get_scheduled_words [⟨1, 1, "word", "aa", 0⟩, ⟨2, 1, "word", "bb", 1⟩]
          [⟨"u", 1, "aa", "word", 3, 5/2, 7, 100, 50, 4⟩]
          "u" 1 "word" 1 100).words.countP (fun w => w.is_new) : Int) ∧
     (get_scheduled_words [⟨1, 1, "word", "aa", 0⟩, ⟨2, 1, "word", "bb", 1⟩]
        [⟨"u", 1, "aa", "word", 3, 5/2, 7, 100, 50, 4⟩]
        "u" 1 "word" 1 100).review_words_count
       = ((get_scheduled_words [⟨1, 1, "word", "aa", 0⟩, ⟨2, 1, "word", "bb", 1⟩]
          [⟨"u", 1, "aa", "word", 3, 5/2, 7, 100, 50, 4⟩]
          "u" 1 "word" 1 100).words.countP (fun w => !w.is_new) : Int)) :=
  ⟨⟨by norm_num, by norm_num⟩,
   plan_length_and_counts _ _ "u" 1 "word" 1 100 (by norm_num) (by norm_num)⟩

theorem is_new_of_mem_dueReviewWords {store : List Segment}
    {ledger : List WordMastery} {u : String} {aid : Int} {ty : String} {now : Nat}
    {w : ScheduledWord} (h : w ∈ dueReviewWords store ledger u aid ty now) :
    w.is_new = false := by
  rw [dueReviewWords] at h
  rcases List.mem_filterMap.mp h with ⟨s, _, hf⟩
  split at hf
  · split at hf
    · rw [← Option.some.inj hf]
    · cases hf
  · cases hf

/-- C2 counterexample: two items both due at time 100 with mastery levels 3
and 1 in store order and limit 1.  The claim requires the plan to consist of
the due item with the lower mastery level (segment 2, level 1); the code
truncates the review list before sorting and returns segment 1 with level 3. -/
theorem plan_not_fragile_first_cex :
    ((get_scheduled_words [⟨1, 1, "word", "aa", 0⟩, ⟨2, 1, "word", "bb", 1⟩]
        [⟨"u", 1, "aa", "word", 3, 5/2, 7, 100, 50, 4⟩,
         ⟨"u", 2, "bb", "word", 1, 5/2, 7, 100, 50, 4⟩]
        "u" 1 "word" 1 100).words.map (fun w => (w.segment_id, w.mastery_level))
      = [(1, 3)]) ∧
    ((get_scheduled_words [⟨1, 1, "word", "aa", 0⟩, ⟨2, 1, "word", "bb", 1⟩]
        [⟨"u", 1, "aa", "word", 3, 5/2, 7, 100, 50, 4⟩,
         ⟨"u", 2, "bb", "word", 1, 5/2, 7, 100, 50, 4⟩]
        "u" 1 "word" 1 100).words.map (fun w => (w.segment_id, w.mastery_level))
      ≠ [(2, 1)]) := by
  constructor <;> decide

/-- C2 corrected: when the due review set has at least limit elements (limit
at least 1, within the i32 range), the plan is the first limit due review
items in item-store order, sorted only afterwards by the memory-curve
comparator; it contains zero new items and exactly limit review items. -/
theorem plan_truncates_before_sorting (store : List Segment)
    (ledger : List WordMastery) (u : String) (aid : Int) (ty : String)
    (limit : Int) (now : Nat)
    (h1 : 1 ≤ limit) (h2 : limit < 2 ^ 31)
    (h3 : usizeOfI32 limit ≤ (dueReviewWords store ledger u aid ty now).length) :
    (get_scheduled_words store ledger u aid ty limit now).words
      = sortBy schedLe
          ((dueReviewWords store ledger u aid ty now).take (usizeOfI32 limit)) ∧
    (get_scheduled_words store ledger u aid ty limit now).new_words_count = 0 ∧
    (get_scheduled_words store ledger u aid ty limit now).review_words_count = limit := by
  have hlimN : usizeOfI32 limit = limit.toNat := usizeOfI32_of_nonneg (by omega) h2
  have hpos : 1 ≤ usizeOfI32 limit := by omega
  have hseg : articleSegments store aid ty ≠ [] := by
    intro he
    rw [dueReviewWords, he] at h3
    simp at h3
    omega
  rw [get_scheduled_words_full store ledger u aid ty limit now hseg h3]
  have hnotnew : ∀ w ∈ sortBy schedLe
      ((dueReviewWords store ledger u aid ty now).take (usizeOfI32 limit)),
      w.is_new = false := by
    intro w hw
    rw [mem_sortBy] at hw
    exact is_new_of_mem_dueReviewWords (List.mem_of_mem_take hw)
  refine ⟨rfl, ?_, ?_⟩
  · have hzero : (sortBy schedLe
        ((dueReviewWords store ledger u aid ty now).take (usizeOfI32 limit))).countP
        (fun w => w.is_new) = 0 := by
      rw [List.countP_eq_zero]
      intro a ha
      simp [hnotnew a ha]
    rw [hzero]
    simp only [i32OfUsize]
    omega
  · have hall : (sortBy schedLe
        ((dueReviewWords store ledger u aid ty now).take (usizeOfI32 limit))).countP
        (fun w => !w.is_new)
        = (sortBy schedLe
            ((dueReviewWords store ledger u aid ty now).take (usizeOfI32 limit))).length := by
      rw [List.countP_eq_length]
      intro a ha
      simp [hnotnew a ha]
    rw [hall, length_sortBy, List.length_take, min_eq_left h3, hlimN,
      i32OfUsize_small (show limit.toNat < 2 ^ 31 by omega)]
    exact Int.toNat_of_nonneg (by omega)

/-- Witness for the corrected C2 on a two-due-items article with limit 1. -/
theorem plan_truncates_before_sorting_witness :
    ((1 : Int) ≤ 1 ∧ (1 : Int) < 2 ^ 31 ∧
      usizeOfI32 1 ≤ (dueReviewWords [⟨1, 1, "word", "aa", 0⟩, ⟨2, 1, "word", "bb", 1⟩]
        [⟨"u", 1, "aa", "word", 3, 5/2, 7, 100, 50, 4⟩,
         ⟨"u", 2, "bb", "word", 1, 5/2, 7, 100, 50, 4⟩] "u" 1 "word" 100).length) ∧
    ((get_scheduled_words [⟨1, 1, "word", "aa", 0⟩, ⟨2, 1, "word", "bb", 1⟩]
        [⟨"u", 1, "aa", "word", 3, 5/2, 7, 100, 50, 4⟩,
         ⟨"u", 2, "bb", "word", 1, 5/2, 7, 100, 50, 4⟩]
        "u" 1 "word" 1 100).words
      = sortBy schedLe
          ((dueReviewWords [⟨1, 1, "word", "aa", 0⟩, ⟨2, 1, "word", "bb", 1⟩]
            [⟨"u", 1, "aa", "word", 3, 5/2, 7, 100, 50, 4⟩,
             ⟨"u", 2, "bb", "word", 1, 5/2, 7, 100, 50, 4⟩]
            "u" 1 "word" 100).take (usizeOfI32 1)) ∧
    (get_scheduled_words [⟨1, 1, "word", "aa", 0⟩, ⟨2, 1, "word", "bb", 1⟩]
        [⟨"u", 1, "aa", "word", 3, 5/2, 7, 100, 50, 4⟩,
         ⟨"u", 2, "bb", "word", 1, 5/2, 7, 100, 50, 4⟩]
        "u" 1 "word" 1 100).new_words_count = 0 ∧
    (get_scheduled_words [⟨1, 1, "word", "aa", 0⟩, ⟨2, 1, "word", "bb", 1⟩]
        [⟨"u", 1, "aa", "word", 3, 5/2, 7, 100, 50, 4⟩,
         ⟨"u", 2, "bb", "word", 1, 5/2, 7, 100, 50, 4⟩]
        "u" 1 "word" 1 100).review_words_count = 1) :=
  ⟨⟨by norm_num, by norm_num, by decide⟩,
   plan_truncates_before_sorting _ _ "u" 1 "word" 1 100
     (by norm_num) (by norm_num) (by decide)⟩

/-- C9: the scheduler is deterministic: identical stores, mastery tables,
arguments and timestamp yield identical plans; there is no randomness. -/
theorem plan_deterministic (store store2 : List Segment)
    (ledger ledger2 : List WordMastery) (u u2 : String) (aid aid2 : Int)
    (ty ty2 : String) (limit limit2 : Int) (now now2 : Nat)
    (hs : store = store2) (hl : ledger = ledger2) (hu : u = u2) (ha : aid = aid2)
    (ht : ty = ty2) (hm : limit = limit2) (hn : now = now2) :
    get_scheduled_words store ledger u aid ty limit now
      = get_scheduled_words store2 ledger2 u2 aid2 ty2 limit2 now2 := by
  subst hs
  subst hl
  subst hu
  subst ha
  subst ht
  subst hm
  subst hn
  rfl

/-- Witness for C9: two immediately successive identical calls. -/
theorem plan_deterministic_witness :
    (([⟨1, 1, "word", "aa", 0⟩] : List Segment) = [⟨1, 1, "word", "aa", 0⟩] ∧
     ([⟨"u", 1, "aa", "word", 3, 5/2, 7, 100, 50, 4⟩] : List WordMastery)
        = [⟨"u", 1, "aa", "word", 3, 5/2, 7, 100, 50, 4⟩]) ∧
    get_scheduled_words [⟨1, 1, "word", "aa", 0⟩]
        [⟨"u", 1, "aa", "word", 3, 5/2, 7, 100, 50, 4⟩] "u" 1 "word" 5 100
      = get_scheduled_words [⟨1, 1, "word", "aa", 0⟩]
        [⟨"u", 1, "aa", "word", 3, 5/2, 7, 100, 50, 4⟩] "u" 1 "word" 5 100 :=
  ⟨⟨rfl, rfl⟩,
   plan_deterministic _ _ _ _ "u" "u" 1 1 "word" "word" 5 5 100 100
     rfl rfl rfl rfl rfl rfl rfl⟩

theorem due_add_new_length_le (store : List Segment) (ledger : List WordMastery)
    (u : String) (aid : Int) (ty : String) (now : Nat) :
    (dueReviewWords store ledger u aid ty now).length
      + (newWords store ledger u aid ty).length
      ≤ (articleSegments store aid ty).length := by
  rw [dueReviewWords, newWords]
  apply length_filterMap_add_le
  intro s hf
  rcases hcase : lookupMastery ledger u s.id with _ | r
  · rw [hcase] at hf
    exact absurd hf (by simp)
  · rfl

/-- C10: for a negative limit in the i32 range, the cast to usize wraps to at
least 2 to the 63, and when the article has fewer than that many items the
plan contains every due review item and every new item of the article/kind. -/
theorem negative_limit_returns_all (store : List Segment)
    (ledger : List WordMastery) (u : String) (aid : Int) (ty : String)
    (limit : Int) (now : Nat)
    (hneg : limit < 0) (hrange : -(2 ^ 31) ≤ limit)
    (hsize : (articleSegments store aid ty).length < 2 ^ 63) :
    2 ^ 63 ≤ usizeOfI32 limit ∧
    (∀ w ∈ dueReviewWords store ledger u aid ty now,
      w ∈ (get_scheduled_words store ledger u aid ty limit now).words) ∧
    (∀ w ∈ newWords store ledger u aid ty,
      w ∈ (get_scheduled_words store ledger u aid ty limit now).words) := by
  have hbig := usizeOfI32_of_neg hneg hrange
  have hdisj := due_add_new_length_le store ledger u aid ty now
  have hduelen : (dueReviewWords store ledger u aid ty now).length
      ≤ (articleSegments store aid ty).length := by omega
  refine ⟨hbig, ?_, ?_⟩
  · intro w hw
    by_cases hseg : articleSegments store aid ty = []
    · rw [dueReviewWords, hseg] at hw
      exact absurd hw (by simp)
    · have hlt : (dueReviewWords store ledger u aid ty now).length < usizeOfI32 limit := by
        omega
      rw [get_scheduled_words_fill store ledger u aid ty limit now hseg hlt]
      exact (mem_sortBy _ _ _).mpr (List.mem_append_left _ hw)
  · intro w hw
    by_cases hseg : articleSegments store aid ty = []
    · rw [newWords, hseg] at hw
      exact absurd hw (by simp)
    · have hlt : (dueReviewWords store ledger u aid ty now).length < usizeOfI32 limit := by
        omega
      rw [get_scheduled_words_fill store ledger u aid ty limit now hseg hlt]
      have htake : (newWords store ledger u aid ty).length
          ≤ usizeOfI32 limit - (dueReviewWords store ledger u aid ty now).length := by
        omega
      refine (mem_sortBy _ _ _).mpr (List.mem_append_right _ ?_)
      rw [List.take_of_length_le htake]
      exact hw

/-- Witness for C10 on a one-item article with no records and limit minus 1. -/
theorem negative_limit_returns_all_witness :
    ((-1 : Int) < 0 ∧ -(2 ^ 31) ≤ (-1 : Int) ∧
      (articleSegments [⟨1, 1, "word", "aa", 0⟩] 1 "word").length < 2 ^ 63) ∧
    (2 ^ 63 ≤ usizeOfI32 (-1) ∧
    (∀ w ∈ dueReviewWords [⟨1, 1, "word", "aa", 0⟩] [] "u" 1 "word" 100,
      w ∈ (get_scheduled_words [⟨1, 1, "word", "aa", 0⟩] [] "u" 1 "word" (-1) 100).words) ∧
    (∀ w ∈ newWords [⟨1, 1, "word", "aa", 0⟩] [] "u" 1 "word",
      w ∈ (get_scheduled_words [⟨1, 1, "word", "aa", 0⟩] [] "u" 1 "word" (-1) 100).words)) :=
  ⟨⟨by norm_num, by norm_num, by decide⟩,
   negative_limit_returns_all _ _ "u" 1 "word" (-1) 100
     (by norm_num) (by norm_num) (by decide)⟩

/-- C1 counterexample: user alice has a mastery record on the single item cat;
resegmenting with a list that still contains cat re-inserts the learning state
under the hard-coded user default, so no record for alice remains — the claim
fails for every user other than default. -/
theorem resegment_loses_other_users_cex :
    ((save_segments [⟨1, 1, "word", "cat", 0⟩]
        [⟨"alice", 1, "cat", "word", 3, 5/2, 7, 50, 40, 4⟩] 1 "word" ["cat"] 2).2
      = [⟨"default", 2, "cat", "word", 3, 5/2, 7, 50, 40, 4⟩]) ∧
    (∀ r ∈ (save_segments [⟨1, 1, "word", "cat", 0⟩]
        [⟨"alice", 1, "cat", "word", 3, 5/2, 7, 50, 40, 4⟩] 1 "word" ["cat"] 2).2,
      r.user_name ≠ "alice") := by
  refine ⟨rfl, ?_⟩
  intro r hr
  rw [show (save_segments [⟨1, 1, "word", "cat", 0⟩]
      [⟨"alice", 1, "cat", "word", 3, 5/2, 7, 50, 40, 4⟩] 1 "word" ["cat"] 2).2
      = [⟨"default", 2, "cat", "word", 3, 5/2, 7, 50, 40, 4⟩] from rfl] at hr
  rw [List.mem_singleton] at hr
  rw [hr]
  decide

/-- C1 corrected: the reconciler re-inserts learning state under the fixed
user default, copying the fields of the first snapshot row whose content
matches the new segment; in particular, when the snapshot row of the pair
(default, content) is that first match, its mastery fields survive under the
new item id at every position of the new list holding that content. -/
theorem resegment_restores_default (store : List Segment)
    (ledger : List WordMastery) (aid : Int) (ty : String)
    (segments : List String) (next_id : Int) (t : SnapshotRow) (j : ℕ)
    (hj : j < segments.length)
    (hc : segments.get ⟨j, hj⟩ = t.segment_content)
    (hfind : (masterySnapshot store ledger aid ty).find?
        (fun q => q.segment_content == t.segment_content) = some t) :
    WordMastery.mk "default" (next_id + j) t.segment_content ty
        t.mastery_level t.ease_factor t.interval_days t.next_review_at
        t.last_review_at t.review_count
      ∈ (save_segments store ledger aid ty segments next_id).2 := by
  rw [save_segments]
  apply List.mem_append_right
  apply List.mem_filterMap.mpr
  refine ⟨(j, segments.get ⟨j, hj⟩), ?_, ?_⟩
  · exact List.mk_mem_enum_iff_getElem?.mpr
      (by simp [List.getElem?_eq_getElem hj, List.get_eq_getElem])
  · rw [hc]
    rw [show ((masterySnapshot store ledger aid ty).find?
        (fun q => q.segment_content == t.segment_content)) = some t from hfind]

/-- Witness for the corrected C1: the default user record on cat survives
resegmentation with the same content. -/
theorem resegment_restores_default_witness :
    ((0 < (["cat"] : List String).length) ∧
     (["cat"] : List String).get ⟨0, by norm_num⟩
        = (⟨"cat", 3, 5/2, 7, 50, 40, 4⟩ : SnapshotRow).segment_content ∧
     (masterySnapshot [⟨1, 1, "word", "cat", 0⟩]
        [⟨"default", 1, "cat", "word", 3, 5/2, 7, 50, 40, 4⟩] 1 "word").find?
        (fun q => q.segment_content
          == (⟨"cat", 3, 5/2, 7, 50, 40, 4⟩ : SnapshotRow).segment_content)
        = some ⟨"cat", 3, 5/2, 7, 50, 40, 4⟩) ∧
    WordMastery.mk "default" (2 + 0) "cat" "word" 3 (5/2) 7 50 40 4
      ∈ (save_segments [⟨1, 1, "word", "cat", 0⟩]
          [⟨"default", 1, "cat", "word", 3, 5/2, 7, 50, 40, 4⟩]
          1 "word" ["cat"] 2).2 :=
  ⟨⟨by norm_num, rfl, rfl⟩,
   resegment_restores_default [⟨1, 1, "word", "cat", 0⟩]
     [⟨"default", 1, "cat", "word", 3, 5/2, 7, 50, 40, 4⟩] 1 "word" ["cat"] 2
     ⟨"cat", 3, 5/2, 7, 50, 40, 4⟩ 0 (by norm_num) rfl rfl⟩

end WordsSpelling
